import Mathlib

/-!
Verification development for the `ifc-datareader` library.

The Python sources are shallowly embedded: strings are `List Char` (or
`String` where only equality matters), Python `None` is `Option.none`,
raised exceptions are `Except PyErr`, tuples are `List`, and the lazily
memoized instance attributes of the entity classes are explicit
`Option`-valued cache fields threaded through accessor functions.
-/

namespace IfcDR

/-- Python exceptions raised by the embedded code paths. -/
inductive PyErr where
  | valueError
  | keyError
  | attributeError
  deriving DecidableEq

/-! ## `tools.clean_str` and `IfcBaseEntity.codename`

`clean_str` removes every character of Python's `string.punctuation` from
the input (returning `None` for a `None` input); `codename` then lower-cases
the result and removes spaces.  Characters model Python 1-char strings. -/

/-- Python `string.punctuation`: the 32 ASCII punctuation characters. -/
def pyPunctuation : List Char :=
  ['!', '"', '#', '$', '%', '&', '\'', '(', ')', '*', '+', ',', '-', '.',
   '/', ':', ';', '<', '=', '>', '?', '@', '[', '\\', ']', '^', '_', '`',
   '{', '|', '}', '~']

/-- Python `str_in.replace(cur_char, '')` guarded by `if cur_char in str_in`
(the guard is in the source's loop body; replacing removes every
occurrence of the character). -/
def removePunctChar (s : List Char) (c : Char) : List Char :=
  if c ∈ s then s.filter (fun x => x ≠ c) else s

/-- Embedding of `tools.clean_str`: `None` input yields `None`; otherwise
every `string.punctuation` character is removed in turn. -/
def clean_str (strIn : Option (List Char)) : Option (List Char) :=
  match strIn with
  | none => none
  | some s => some (pyPunctuation.foldl removePunctChar s)

/-- Python `str.lower` restricted to ASCII (the only case exercised by the
library's IFC names): an upper-case ASCII letter is shifted into lower
case, every other character is unchanged. -/
def pyLowerChar (c : Char) : Char :=
  if 'A' ≤ c ∧ c ≤ 'Z' then Char.ofNat (c.toNat + 32) else c

/-- Embedding of the `IfcBaseEntity.codename` property over the entity's
`Name` field: `clean_str(self.name).lower().replace(' ', '')`.  Calling
`.lower()` on the `None` returned by `clean_str` for a `None` name raises
`AttributeError`, which the `Except` models. -/
def codenameOfName (name : Option (List Char)) : Except PyErr (List Char) :=
  match clean_str name with
  | none => .error .attributeError
  | some s => .ok ((s.map pyLowerChar).filter (fun x => x ≠ ' '))

theorem foldl_removePunctChar (ps : List Char) (s : List Char) :
    ps.foldl removePunctChar s = s.filter (fun x => x ∉ ps) := by
  induction ps generalizing s with
  | nil => simp
  | cons p ps ih =>
    have hstep : removePunctChar s p = s.filter (fun x => x ≠ p) := by
      by_cases hp : p ∈ s
      · simp [removePunctChar, hp]
      · simp only [removePunctChar, hp, if_false]
        refine (List.filter_eq_self.mpr ?_).symm
        intro a ha
        simp only [decide_eq_true_eq, ne_eq]
        intro h; exact hp (h ▸ ha)
    rw [List.foldl_cons, hstep, ih, List.filter_filter]
    apply List.filter_congr
    intro a _
    simp [List.mem_cons, not_or, Bool.and_comm]

/-- C10: for a record whose display name is absent (`None`), `clean_str`
returns `None` and the subsequent `.lower()` call of the `codename`
accessor raises (`AttributeError`); for a record whose display name is a
string, `codename` totally returns that name lower-cased with every
`string.punctuation` character and every space removed. -/
theorem codename_total_on_strings_and_fails_on_none :
    clean_str none = none ∧
    codenameOfName none = .error .attributeError ∧
    ∀ s : List Char,
      codenameOfName (some s) =
        .ok (((s.filter (fun c => c ∉ pyPunctuation)).map pyLowerChar).filter
          (fun c => c ≠ ' ')) := by
  refine ⟨rfl, rfl, fun s => ?_⟩
  simp [codenameOfName, clean_str, foldl_removePunctChar]

/-! ## Python string comparison

Python compares strings lexicographically by code point: the first
differing character decides, and a proper prefix is smaller.  `pyLt`
embeds `<` on strings; `pyLe` is the derived `not (b < a)` used to state
ascending sortedness of `sorted(...)` results. -/

/-- Lexicographic strict comparison of Python strings (by code point). -/
def pyLt : List Char → List Char → Bool
  | [], [] => false
  | [], _ :: _ => true
  | _ :: _, [] => false
  | a :: as, b :: bs => if a < b then true else if b < a then false else pyLt as bs

/-- Non-strict comparison: `a` sorts no later than `b`. -/
def pyLe (a b : List Char) : Bool := !pyLt b a

theorem pyLt_irrefl (a : List Char) : pyLt a a = false := by
  induction a with
  | nil => rfl
  | cons c cs ih => simp [pyLt, ih]

theorem pyLt_trans {a b c : List Char} (hab : pyLt a b = true)
    (hbc : pyLt b c = true) : pyLt a c = true := by
  induction a generalizing b c with
  | nil =>
    cases b with
    | nil => exact absurd hab (by simp [pyLt])
    | cons y ys =>
      cases c with
      | nil => exact absurd hbc (by simp [pyLt])
      | cons z zs => rfl
  | cons x xs ih =>
    cases b with
    | nil => exact absurd hab (by simp [pyLt])
    | cons y ys =>
      cases c with
      | nil => exact absurd hbc (by simp [pyLt])
      | cons z zs =>
        simp only [pyLt] at hab hbc ⊢
        rcases lt_trichotomy x y with hxy | hxy | hxy
        · rcases lt_trichotomy y z with hyz | hyz | hyz
          · simp [lt_trans hxy hyz]
          · simp [hyz ▸ hxy]
          · simp [hyz, not_lt_of_gt hyz] at hbc
        · subst hxy
          rcases lt_trichotomy x z with hxz | hxz | hxz
          · simp [hxz]
          · subst hxz
            simp [lt_irrefl] at hab hbc ⊢
            exact ih hab hbc
          · simp [hxz, not_lt_of_gt hxz] at hbc
        · simp [hxy, not_lt_of_gt hxy] at hab

theorem pyLt_trichotomy (a b : List Char) :
    pyLt a b = true ∨ a = b ∨ pyLt b a = true := by
  induction a generalizing b with
  | nil =>
    cases b with
    | nil => exact Or.inr (Or.inl rfl)
    | cons y ys => exact Or.inl rfl
  | cons x xs ih =>
    cases b with
    | nil => exact Or.inr (Or.inr rfl)
    | cons y ys =>
      rcases lt_trichotomy x y with hxy | hxy | hxy
      · exact Or.inl (by simp [pyLt, hxy])
      · subst hxy
        rcases ih ys with h | h | h
        · exact Or.inl (by simp [pyLt, lt_irrefl, h])
        · exact Or.inr (Or.inl (by rw [h]))
        · exact Or.inr (Or.inr (by simp [pyLt, lt_irrefl, h]))
      · exact Or.inr (Or.inr (by simp [pyLt, hxy]))

theorem pyLt_asymm {a b : List Char} (h : pyLt a b = true) :
    pyLt b a = false := by
  by_contra hba
  have hba' : pyLt b a = true := by
    cases hb : pyLt b a with
    | false => exact absurd hb hba
    | true => rfl
  have := pyLt_trans h hba'
  rw [pyLt_irrefl] at this
  exact Bool.false_ne_true this

theorem pyLe_total (a b : List Char) : pyLe a b = true ∨ pyLe b a = true := by
  rcases pyLt_trichotomy a b with h | h | h
  · exact Or.inl (by simp [pyLe, pyLt_asymm h])
  · exact Or.inl (by simp [pyLe, h, pyLt_irrefl])
  · exact Or.inr (by simp [pyLe, pyLt_asymm h])

theorem pyLe_trans {a b c : List Char} (hab : pyLe a b = true)
    (hbc : pyLe b c = true) : pyLe a c = true := by
  simp only [pyLe, Bool.not_eq_true'] at hab hbc ⊢
  by_contra hca
  have hca' : pyLt c a = true := by
    cases h : pyLt c a with
    | false => exact absurd h hca
    | true => rfl
  rcases pyLt_trichotomy a b with h | h | h
  · have := pyLt_trans hca' h
    rw [hbc] at this; exact Bool.false_ne_true this
  · subst h; rw [hca'] at hbc; exact absurd hbc (by simp)
  · rw [hab] at h; exact Bool.false_ne_true h

/-! ## `IfcSchemaSelectType.entity_names`

Embedding of `tuple(sorted(self._raw_types.replace('\n\t', '').split(',')))`
over the raw member text of a select type.  Python's `sorted` is a stable
ascending sort with respect to string `<`; a stable insertion sort with
`pyLe` computes the same list. -/

/-- Python `s.replace('\n\t', '')`: remove every (non-overlapping,
left-to-right) occurrence of the two-character separator. -/
def removeNewlineTab : List Char → List Char
  | [] => []
  | [c] => [c]
  | c1 :: c2 :: rest =>
    if c1 = '\n' ∧ c2 = '\t' then removeNewlineTab rest
    else c1 :: removeNewlineTab (c2 :: rest)

/-- Raw data held by an `IfcSchemaSelectType` instance. -/
structure IfcSchemaSelectType where
  name : String
  rawTypes : List Char

/-- Embedding of the `entity_names` property. -/
def entity_names (sel : IfcSchemaSelectType) : List (List Char) :=
  List.insertionSort (fun x y => pyLe x y = true)
    (List.splitOn ',' (removeNewlineTab sel.rawTypes))

instance : IsTotal (List Char) (fun x y => pyLe x y = true) := ⟨pyLe_total⟩

instance : IsTrans (List Char) (fun x y => pyLe x y = true) :=
  ⟨fun _ _ _ => pyLe_trans⟩

/-- C7 counterexample: a raw member list that repeats a name yields a
result with a duplicate entry, refuting the no-duplicates part of the
claim. -/
theorem entity_names_duplicate_counterexample :
    ¬ (entity_names ⟨"sel", "IfcWall,IfcWall".data⟩).Nodup ∧
    entity_names ⟨"sel", "IfcWall,IfcWall".data⟩ =
      ["IfcWall".data, "IfcWall".data] := by
  constructor
  · decide
  · decide

/-- C7 (amended): `entity_names` returns the member names ascendingly
sorted (pairwise with respect to Python string order) and is a
permutation of the comma-split raw member list, so duplicated raw members
stay duplicated; uniqueness is not enforced. -/
theorem entity_names_sorted_perm (sel : IfcSchemaSelectType) :
    (entity_names sel).Pairwise (fun x y => pyLe x y = true) ∧
    (entity_names sel).Perm
      (List.splitOn ',' (removeNewlineTab sel.rawTypes)) := by
  constructor
  · exact List.sorted_insertionSort (fun x y => pyLe x y = true) _
  · exact List.perm_insertionSort (fun x y => pyLe x y = true) _

/-! ## `IfcSchemaEntity._extract_raw_data`: the attribute region

The attribute declarations of an entity block are the text
`min([inner_raw_data.partition('\n ' + noa)[0] for noa in _NO_ATTR])`.
Each `partition(sep)[0]` is the prefix of `inner_raw_data` before the
first occurrence of `sep` (the whole text when `sep` is absent), and
Python's `min` over strings picks the lexicographically smallest. -/

/-- Section keywords `IfcSchemaEntity._NO_ATTR`, in declaration order. -/
def noAttrKeywords : List (List Char) :=
  ["WHERE".data, "INVERSE".data, "WR2".data, "WR3".data, "WR4".data,
   "WR5".data, "UNIQUE".data, "DERIVE".data]

/-- Offset of the first occurrence of `sep` in `s` (`none` when absent). -/
def firstIdxOf (sep : List Char) : List Char → Option Nat
  | [] => if sep.isEmpty then some 0 else none
  | c :: rest =>
    if sep.isPrefixOf (c :: rest) then some 0
    else (firstIdxOf sep rest).map (fun i => i + 1)

/-- Python `s.partition(sep)[0]`: the text before the first occurrence of
`sep`, or all of `s` when `sep` does not occur. -/
def partitionBefore (s sep : List Char) : List Char :=
  match firstIdxOf sep s with
  | none => s
  | some i => s.take i

/-- Python `min` over a list of strings (first element of an empty list
never arises in the embedded call). -/
def pyMinString : List (List Char) → List Char
  | [] => []
  | x :: xs => xs.foldl (fun m y => if pyLt y m then y else m) x

/-- Embedding of the attribute-region computation of
`IfcSchemaEntity._extract_raw_data` over the post-header text. -/
def attrsRegion (inner : List Char) : List Char :=
  pyMinString (noAttrKeywords.map
    (fun noa => partitionBefore inner ('\n' :: ' ' :: noa)))

/-- Offset at which the region bounded by one keyword would end: the first
occurrence of newline-space-keyword, or the text length when absent. -/
def cutAt (s sep : List Char) : Nat := (firstIdxOf sep s).getD s.length

/-- Offsets of all the section-keyword boundaries in the post-header text. -/
def boundaryOffsets (inner : List Char) : List Nat :=
  noAttrKeywords.map (fun noa => cutAt inner ('\n' :: ' ' :: noa))

/-- Minimum boundary offset over the whole keyword set. -/
def minBoundaryOffset (inner : List Char) : Nat :=
  match boundaryOffsets inner with
  | [] => inner.length
  | x :: xs => xs.foldl Nat.min x

theorem firstIdxOf_le_length {sep s : List Char} {i : Nat}
    (h : firstIdxOf sep s = some i) : i ≤ s.length := by
  induction s generalizing i with
  | nil =>
    simp only [firstIdxOf] at h
    split at h
    · cases h; exact Nat.le_refl 0
    · cases h
  | cons c rest ih =>
    simp only [firstIdxOf] at h
    split at h
    · cases h; exact Nat.zero_le _
    · cases hr : firstIdxOf sep rest with
      | none => rw [hr] at h; cases h
      | some j =>
        rw [hr] at h
        cases h
        simpa [Nat.succ_le_succ_iff] using ih hr

theorem cutAt_le_length (s sep : List Char) : cutAt s sep ≤ s.length := by
  unfold cutAt
  cases h : firstIdxOf sep s with
  | none => simp
  | some i => simpa using firstIdxOf_le_length h

theorem partitionBefore_eq_take (s sep : List Char) :
    partitionBefore s sep = s.take (cutAt s sep) := by
  unfold partitionBefore cutAt
  cases h : firstIdxOf sep s with
  | none => simp
  | some i => simp

theorem pyLt_take_take (s : List Char) {i j : Nat} (hi : i ≤ s.length)
    (hj : j ≤ s.length) : pyLt (s.take i) (s.take j) = decide (i < j) := by
  induction s generalizing i j with
  | nil =>
    simp only [List.length_nil, Nat.le_zero] at hi hj
    subst hi; subst hj
    simp [pyLt]
  | cons c rest ih =>
    cases i with
    | zero =>
      cases j with
      | zero => simp [pyLt]
      | succ k => simp [pyLt]
    | succ m =>
      cases j with
      | zero => simp [pyLt]
      | succ k =>
        simp only [List.take_succ_cons, pyLt, lt_irrefl, if_false]
        rw [ih (Nat.le_of_succ_le_succ hi) (Nat.le_of_succ_le_succ hj)]
        simp [Nat.succ_lt_succ_iff]

theorem pyMin_map_take (s : List Char) (x : Nat) (xs : List Nat)
    (hx : x ≤ s.length) (hxs : ∀ y ∈ xs, y ≤ s.length) :
    pyMinString ((x :: xs).map (fun n => s.take n)) =
      s.take (xs.foldl Nat.min x) := by
  induction xs generalizing x with
  | nil => simp [pyMinString]
  | cons y ys ih =>
    have hy : y ≤ s.length := hxs y (List.mem_cons_self y ys)
    have hys : ∀ z ∈ ys, z ≤ s.length := fun z hz =>
      hxs z (List.mem_cons_of_mem y hz)
    have hstep : (if pyLt (s.take y) (s.take x) then s.take y else s.take x)
        = s.take (Nat.min x y) := by
      rw [pyLt_take_take s hy hx]
      rcases Nat.lt_or_ge y x with h | h
      · simp [h, Nat.min_def, Nat.not_le_of_lt h,
          (Nat.le_of_lt h : y ≤ x)]
      · have : ¬ y < x := Nat.not_lt_of_ge h
        simp [this, Nat.min_def, h]
    have hmin : Nat.min x y ≤ s.length := le_trans (Nat.min_le_left x y) hx
    calc pyMinString ((x :: y :: ys).map (fun n => s.take n))
        = pyMinString ((Nat.min x y :: ys).map (fun n => s.take n)) := by
          simp only [List.map_cons, pyMinString, List.foldl_cons, hstep]
      _ = s.take (ys.foldl Nat.min (Nat.min x y)) := ih (Nat.min x y) hmin hys
      _ = s.take ((y :: ys).foldl Nat.min x) := by simp [List.foldl_cons]

theorem foldl_min_le_init (xs : List Nat) (x : Nat) :
    xs.foldl Nat.min x ≤ x := by
  induction xs generalizing x with
  | nil => exact Nat.le_refl x
  | cons y ys ih =>
    exact le_trans (ih (Nat.min x y)) (Nat.min_le_left x y)

theorem foldl_min_le_mem (xs : List Nat) (x : Nat) :
    ∀ y ∈ xs, xs.foldl Nat.min x ≤ y := by
  induction xs generalizing x with
  | nil => intro y hy; cases hy
  | cons z zs ih =>
    intro y hy
    rcases List.mem_cons.mp hy with h | h
    · subst h
      exact le_trans (foldl_min_le_init zs (Nat.min x y))
        (Nat.min_le_right x y)
    · exact ih (Nat.min x z) y h

theorem foldl_min_mem (xs : List Nat) (x : Nat) :
    xs.foldl Nat.min x = x ∨ xs.foldl Nat.min x ∈ xs := by
  induction xs generalizing x with
  | nil => exact Or.inl rfl
  | cons y ys ih =>
    rw [List.foldl_cons]
    rcases ih (Nat.min x y) with h | h
    · rcases Nat.le_total x y with hxy | hxy
      · have hmx : Nat.min x y = x := by unfold Nat.min; exact min_eq_left hxy
        rw [h, hmx]; exact Or.inl rfl
      · have hmy : Nat.min x y = y := by
          unfold Nat.min; exact min_eq_right hxy
        rw [h, hmy]
        exact Or.inr (List.mem_cons_self y ys)
    · exact Or.inr (List.mem_cons_of_mem y h)

theorem minBoundaryOffset_eq (inner : List Char) {x : Nat} {xs : List Nat}
    (hbo : boundaryOffsets inner = x :: xs) :
    minBoundaryOffset inner = xs.foldl Nat.min x := by
  unfold minBoundaryOffset
  rw [hbo]

/-- C5: the attribute-declaration region computed by
`_extract_raw_data` is exactly the prefix of the post-header text ending
at the minimum offset at which any `_NO_ATTR` keyword occurs on a new
line; the offset used is a true minimum over the whole keyword set (it is
one of the boundary offsets and is below every one of them), not the
offset of the first keyword in declaration order. -/
theorem attrs_region_is_min_offset_split (inner : List Char) :
    attrsRegion inner = inner.take (minBoundaryOffset inner) ∧
    minBoundaryOffset inner ∈ boundaryOffsets inner ∧
    ∀ n ∈ boundaryOffsets inner, minBoundaryOffset inner ≤ n := by
  refine ⟨?_, ?_, ?_⟩
  · have hmap : noAttrKeywords.map
        (fun noa => partitionBefore inner ('\n' :: ' ' :: noa)) =
        (boundaryOffsets inner).map (fun n => inner.take n) := by
      unfold boundaryOffsets
      rw [List.map_map]
      exact List.map_congr_left fun noa _ => partitionBefore_eq_take _ _
    have hoff : ∀ y ∈ boundaryOffsets inner, y ≤ inner.length := by
      intro y hy
      unfold boundaryOffsets at hy
      rcases List.mem_map.mp hy with ⟨noa, _, rfl⟩
      exact cutAt_le_length _ _
    cases hbo : boundaryOffsets inner with
    | nil => exact absurd hbo (by simp [boundaryOffsets, noAttrKeywords])
    | cons x xs =>
      rw [minBoundaryOffset_eq inner hbo]
      unfold attrsRegion
      rw [hmap, hbo]
      rw [hbo] at hoff
      exact pyMin_map_take inner x xs (hoff x (List.mem_cons_self x xs))
        (fun y hy => hoff y (List.mem_cons_of_mem x hy))
  · cases hbo : boundaryOffsets inner with
    | nil => exact absurd hbo (by simp [boundaryOffsets, noAttrKeywords])
    | cons x xs =>
      rw [minBoundaryOffset_eq inner hbo]
      rcases foldl_min_mem xs x with h | h
      · rw [h]; exact List.mem_cons_self x xs
      · exact List.mem_cons_of_mem x h
  · intro n hn
    cases hbo : boundaryOffsets inner with
    | nil => rw [hbo] at hn; cases hn
    | cons x xs =>
      rw [minBoundaryOffset_eq inner hbo]
      rw [hbo] at hn
      rcases List.mem_cons.mp hn with h | h
      · exact h ▸ foldl_min_le_init xs x
      · exact foldl_min_le_mem xs x n h

/-- C5 witness: the theorem applied to a concrete entity block whose
`WHERE` section precedes its `UNIQUE` section, discharging the
boundary-offset membership hypothesis on a concrete offset. -/
theorem attrs_region_witness :
    attrsRegion " A : B;\n WHERE\n w;\n UNIQUE\n u;".data =
      " A : B;".data ∧
    minBoundaryOffset " A : B;\n WHERE\n w;\n UNIQUE\n u;".data ≤
      cutAt " A : B;\n WHERE\n w;\n UNIQUE\n u;".data
        ('\n' :: ' ' :: "UNIQUE".data) := by
  constructor
  · rw [(attrs_region_is_min_offset_split _).1]
    decide
  · exact (attrs_region_is_min_offset_split _).2.2 _ (by decide)

/-! ## `IfcSchemaDefinedType`

`type_name` splits the raw expression with `re.split(' |\) |\(', ...)`,
prefixes `#` when no token is one of `_SIMPLE_TYPES`, and `is_ref` holds
when `type_name` starts with `#`; `ref_type` looks the raw expression up
in the registry's defined-type dictionary (a `KeyError` when absent). -/

/-- Python `re.split(' |\) |\(', s)`: scan left to right, splitting on a
single space, on a close-parenthesis followed by a space, or on an open
parenthesis. -/
def reSplitTypeExpr (s acc : List Char) : List (List Char) :=
  match s with
  | [] => [acc.reverse]
  | ' ' :: rest => acc.reverse :: reSplitTypeExpr rest []
  | ')' :: ' ' :: rest => acc.reverse :: reSplitTypeExpr rest []
  | '(' :: rest => acc.reverse :: reSplitTypeExpr rest []
  | c :: rest => reSplitTypeExpr rest (c :: acc)

/-- The `IfcSchemaDefinedType._SIMPLE_TYPES` list. -/
def simpleTypes : List (List Char) :=
  ["INTEGER".data, "REAL".data, "STRING".data, "NUMBER".data,
   "LOGICAL".data, "BOOLEAN".data]

/-- Raw data held by an `IfcSchemaDefinedType` instance. -/
structure IfcSchemaDefinedType where
  name : String
  rawValue : List Char

/-- Embedding of the `type_name` property: the raw expression, prefixed
with `#` when the split tokens share no element with `_SIMPLE_TYPES`. -/
def definedTypeName (d : IfcSchemaDefinedType) : List Char :=
  let rawValues := reSplitTypeExpr d.rawValue []
  if rawValues.any (fun t => simpleTypes.contains t) then d.rawValue
  else '#' :: d.rawValue

/-- Embedding of the `is_ref` property: `type_name.startswith('#')`. -/
def definedTypeIsRef (d : IfcSchemaDefinedType) : Bool :=
  ['#'].isPrefixOf (definedTypeName d)

/-- Python dictionary read `m[k]` over an association list with unique
keys: the value at the key, or a `KeyError`. -/
def dictGet {α : Type} (m : List (List Char × α)) (k : List Char) :
    Except PyErr α :=
  match m.find? (fun kv => kv.1 == k) with
  | some kv => .ok kv.2
  | none => .error .keyError

/-- Embedding of the `ref_type` property against a registry dictionary of
defined types: resolve the raw expression when `is_ref` holds, else
`None`. -/
def definedTypeRefType {α : Type} (reg : List (List Char × α))
    (d : IfcSchemaDefinedType) : Except PyErr (Option α) :=
  if definedTypeIsRef d then (dictGet reg d.rawValue).map some
  else .ok none

/-- C6 counterexample: the defined type `IfcCompoundPlaneAngleMeasure`
has raw expression `LIST [3:4] OF INTEGER`, which is not itself one of
the fixed primitive set, yet `is_ref` is false (the split token
`INTEGER` is primitive), refuting the claimed equivalence. -/
theorem is_ref_counterexample :
    definedTypeIsRef ⟨"IfcCompoundPlaneAngleMeasure",
      "LIST [3:4] OF INTEGER".data⟩ = false ∧
    "LIST [3:4] OF INTEGER".data ∉ simpleTypes := by
  constructor
  · decide
  · decide

/-- C6 (amended): for a raw expression that does not itself begin with
`#`, `is_ref` is true exactly when no token of the raw expression (split
on spaces and parentheses) belongs to the fixed primitive set; and when
`is_ref` is true, `ref_type` resolves the raw expression against the
registry and fails with a `KeyError` when no defined type of that name
exists. -/
theorem is_ref_no_simple_token_and_ref_type_key_error
    (d : IfcSchemaDefinedType)
    (hhash : ¬ ['#'].isPrefixOf d.rawValue = true) :
    (definedTypeIsRef d = true ↔
      ∀ t ∈ reSplitTypeExpr d.rawValue [], t ∉ simpleTypes) ∧
    (definedTypeIsRef d = true →
      ∀ {α : Type} (reg : List (List Char × α)),
        (∀ kv ∈ reg, kv.1 ≠ d.rawValue) →
        definedTypeRefType reg d = .error .keyError) := by
  constructor
  · unfold definedTypeIsRef definedTypeName
    by_cases hany :
        (reSplitTypeExpr d.rawValue []).any (fun t => simpleTypes.contains t)
    · simp only [hany, if_true]
      constructor
      · intro h; exact absurd h hhash
      · intro hall
        rcases List.any_eq_true.mp hany with ⟨t, ht, hts⟩
        exact absurd (by simpa using hts) (hall t ht)
    · simp only [hany, if_false]
      constructor
      · intro _ t ht hts
        exact hany (List.any_eq_true.mpr
          ⟨t, ht, by simpa using hts⟩)
      · intro _
        simp [List.isPrefixOf]
  · intro href α reg habsent
    unfold definedTypeRefType
    rw [href]
    simp only [if_true]
    have hfind : reg.find? (fun kv => kv.1 == d.rawValue) = none := by
      rw [List.find?_eq_none]
      intro kv hkv
      simpa using habsent kv hkv
    unfold dictGet
    rw [hfind]
    rfl

/-- C6 witness: the amended theorem at the defined type
`IfcPositiveLengthMeasure = IfcLengthMeasure` (a reference) against an
empty registry, discharging the hash-free and absent-key hypotheses. -/
theorem is_ref_witness :
    definedTypeIsRef ⟨"IfcPositiveLengthMeasure",
      "IfcLengthMeasure".data⟩ = true ∧
    definedTypeRefType ([] : List (List Char × Unit))
      ⟨"IfcPositiveLengthMeasure", "IfcLengthMeasure".data⟩ =
      .error .keyError := by
  have h := is_ref_no_simple_token_and_ref_type_key_error
    ⟨"IfcPositiveLengthMeasure", "IfcLengthMeasure".data⟩ (by decide)
  have href : definedTypeIsRef ⟨"IfcPositiveLengthMeasure",
      "IfcLengthMeasure".data⟩ = true := h.1.mpr (by decide)
  exact ⟨href, h.2 href [] (by intro kv hkv; cases hkv)⟩

/-! ## Raw records

A raw `ifcopenshell.entity_instance` is modelled as a tree: its
transitive type memberships (the `is_a` predicate honors the record's
inheritance chain), the `get_info` fields read by the library, and the
relation collections navigated by `IfcObjectEntity`.  Relation entries
are raw records themselves; their `Relating*` attributes are `Option`
fields (`none` both for an unset attribute and for Python `None`). -/

inductive Raw where
  | mk (typeNames : List String)
       (typeName : String)
       (compositionType : Option String)
       (name : Option String)
       (voidsElements : List Raw)
       (containedInStructure : List Raw)
       (decomposes : List Raw)
       (isDefinedBy : List Raw)
       (isDecomposedBy : List Raw)
       (isGroupedBy : List Raw)
       (hasPropertySets : List Raw)
       (relatedObjects : List Raw)
       (quantities : List Raw)
       (hasProperties : List Raw)
       (relatingBuildingElement : Option Raw)
       (relatingStructure : Option Raw)
       (relatingObject : Option Raw)
       (relatingType : Option Raw)
       (relatingPropertyDefinition : Option Raw)

namespace Raw

/-- Python `raw.is_a(t)`: type membership, transitively honoring the
record's own inheritance chain (the provider supplies the full chain). -/
def isA : Raw → String → Bool
  | .mk tns _ _ _ _ _ _ _ _ _ _ _ _ _ _ _ _ _ _, t => tns.contains t

/-- Python `raw.get_info()['type']` (also `raw.is_a()` with no argument). -/
def typeName : Raw → String
  | .mk _ tn _ _ _ _ _ _ _ _ _ _ _ _ _ _ _ _ _ => tn

/-- Python `raw.get_info().get('CompositionType')`. -/
def compositionType : Raw → Option String
  | .mk _ _ ct _ _ _ _ _ _ _ _ _ _ _ _ _ _ _ _ => ct

/-- Python `raw.get_info().get('Name')`. -/
def name : Raw → Option String
  | .mk _ _ _ nm _ _ _ _ _ _ _ _ _ _ _ _ _ _ _ => nm

/-- Inverse collection `raw.VoidsElements`. -/
def voidsElements : Raw → List Raw
  | .mk _ _ _ _ ve _ _ _ _ _ _ _ _ _ _ _ _ _ _ => ve

/-- Inverse collection `raw.ContainedInStructure`. -/
def containedInStructure : Raw → List Raw
  | .mk _ _ _ _ _ cis _ _ _ _ _ _ _ _ _ _ _ _ _ => cis

/-- Inverse collection `raw.Decomposes`. -/
def decomposes : Raw → List Raw
  | .mk _ _ _ _ _ _ dec _ _ _ _ _ _ _ _ _ _ _ _ => dec

/-- Inverse collection `raw.IsDefinedBy`. -/
def isDefinedBy : Raw → List Raw
  | .mk _ _ _ _ _ _ _ idb _ _ _ _ _ _ _ _ _ _ _ => idb

/-- Inverse collection `raw.IsDecomposedBy`. -/
def isDecomposedBy : Raw → List Raw
  | .mk _ _ _ _ _ _ _ _ idcb _ _ _ _ _ _ _ _ _ _ => idcb

/-- Inverse collection `raw.IsGroupedBy`. -/
def isGroupedBy : Raw → List Raw
  | .mk _ _ _ _ _ _ _ _ _ igb _ _ _ _ _ _ _ _ _ => igb

/-- Attribute `raw.HasPropertySets` of a type object. -/
def hasPropertySets : Raw → List Raw
  | .mk _ _ _ _ _ _ _ _ _ _ hps _ _ _ _ _ _ _ _ => hps

/-- Attribute `rel.RelatedObjects` of a decomposition/grouping relation. -/
def relatedObjects : Raw → List Raw
  | .mk _ _ _ _ _ _ _ _ _ _ _ ro _ _ _ _ _ _ _ => ro

/-- Attribute `raw.Quantities` of an element quantity set. -/
def quantities : Raw → List Raw
  | .mk _ _ _ _ _ _ _ _ _ _ _ _ q _ _ _ _ _ _ => q

/-- Attribute `raw.HasProperties` of a plain property set. -/
def hasProperties : Raw → List Raw
  | .mk _ _ _ _ _ _ _ _ _ _ _ _ _ hp _ _ _ _ _ => hp

/-- Attribute `rel.RelatingBuildingElement` of a voids relation. -/
def relatingBuildingElement : Raw → Option Raw
  | .mk _ _ _ _ _ _ _ _ _ _ _ _ _ _ rbe _ _ _ _ => rbe

/-- Attribute `rel.RelatingStructure` of a containment relation. -/
def relatingStructure : Raw → Option Raw
  | .mk _ _ _ _ _ _ _ _ _ _ _ _ _ _ _ rs _ _ _ => rs

/-- Attribute `rel.RelatingObject` of a decomposition relation. -/
def relatingObject : Raw → Option Raw
  | .mk _ _ _ _ _ _ _ _ _ _ _ _ _ _ _ _ rob _ _ => rob

/-- Attribute `rel.RelatingType` of a defines-by-type relation. -/
def relatingType : Raw → Option Raw
  | .mk _ _ _ _ _ _ _ _ _ _ _ _ _ _ _ _ _ rt _ => rt

/-- Attribute `rel.RelatingPropertyDefinition` of a defines-by-properties
relation. -/
def relatingPropertyDefinition : Raw → Option Raw
  | .mk _ _ _ _ _ _ _ _ _ _ _ _ _ _ _ _ _ _ rpd => rpd

end Raw

/-! ## `IfcObjectEntity._get_relating_object` (parent resolution) -/

/-- Embedding of `IfcObjectEntity._get_relating_object`: the
fixed-priority chain over the subtraction-feature, element-containment
and decomposition relations (each guard also requires exactly one
relation entry). -/
def getRelatingObject (r : Raw) : Option Raw :=
  if r.isA "IfcFeatureElementSubtraction" && (r.voidsElements.length == 1)
  then (r.voidsElements.head?).bind Raw.relatingBuildingElement
  else if r.isA "IfcElement" && (r.containedInStructure.length == 1)
  then (r.containedInStructure.head?).bind Raw.relatingStructure
  else if r.isA "IfcObjectDefinition" && (r.decomposes.length == 1)
  then (r.decomposes.head?).bind Raw.relatingObject
  else none

/-- A raw record used as a concrete test vehicle: every collection empty
and every field unset except the arguments. -/
def mkRawBase (typeNames : List String) (typeName : String) : Raw :=
  .mk typeNames typeName none none [] [] [] [] [] [] [] [] [] []
    none none none none none

/-- A subtraction-feature record (an opening element, whose type chain
includes `IfcElement`) with an empty voids collection but exactly one
containment relation. -/
def exOpening : Raw :=
  .mk ["IfcFeatureElementSubtraction", "IfcFeatureElement", "IfcElement",
       "IfcProduct", "IfcObject", "IfcObjectDefinition", "IfcRoot",
       "IfcOpeningElement"]
    "IfcOpeningElement" none none
    []
    [.mk ["IfcRelContainedInSpatialStructure"]
      "IfcRelContainedInSpatialStructure" none none [] [] [] [] [] [] [] []
      [] [] none
      (some (mkRawBase ["IfcBuildingStorey", "IfcSpatialStructureElement"]
        "IfcBuildingStorey"))
      none none none]
    [] [] [] [] [] [] [] [] none none none none none

/-- C1 counterexample: a subtraction-feature record whose voids-relation
collection is empty does not get an undefined parent - the chain falls
through to the containment rule and resolves the containing structure. -/
theorem parent_chain_counterexample :
    exOpening.isA "IfcFeatureElementSubtraction" = true ∧
    exOpening.voidsElements.length = 0 ∧
    getRelatingObject exOpening =
      some (mkRawBase ["IfcBuildingStorey", "IfcSpatialStructureElement"]
        "IfcBuildingStorey") := by
  refine ⟨by decide, rfl, rfl⟩

/-- C1 (amended): when a subtraction-feature record's voids-relation
collection has zero or two-or-more entries, resolution falls through (in
priority order, without error) to the element-containment rule and then
to the decomposition rule; the parent is undefined only when no later
rule matches with exactly one relation entry. -/
theorem parent_chain_falls_through (r : Raw)
    (hsub : r.isA "IfcFeatureElementSubtraction" = true)
    (hvoids : r.voidsElements.length ≠ 1) :
    getRelatingObject r =
      (if r.isA "IfcElement" && (r.containedInStructure.length == 1)
       then (r.containedInStructure.head?).bind Raw.relatingStructure
       else if r.isA "IfcObjectDefinition" && (r.decomposes.length == 1)
       then (r.decomposes.head?).bind Raw.relatingObject
       else none) := by
  unfold getRelatingObject
  have h1 : (r.voidsElements.length == 1) = false := by
    simpa using hvoids
  rw [hsub, h1]
  simp

/-- C1 witness: the amended theorem applied to the concrete opening
record, with the subtraction-feature and voids-count hypotheses
discharged there. -/
theorem parent_chain_falls_through_witness :
    getRelatingObject exOpening =
      (if exOpening.isA "IfcElement" &&
          (exOpening.containedInStructure.length == 1)
       then (exOpening.containedInStructure.head?).bind Raw.relatingStructure
       else if exOpening.isA "IfcObjectDefinition" &&
          (exOpening.decomposes.length == 1)
       then (exOpening.decomposes.head?).bind Raw.relatingObject
       else none) :=
  parent_chain_falls_through exOpening (by decide) (by decide)

/-! ## `IfcBaseEntity.__init__` (record validation base)

The constructor raises `ValueError` when the raw record is not an
`entity_instance` (modelled by `none`), when `expected_types` is not a
tuple, and - inside the loop over `expected_types` - as soon as one
expected type fails the record's `is_a` membership test. -/

/-- The `expected_types` argument: a Python tuple of type names, or any
non-tuple value. -/
inductive ExpectedTypesArg where
  | tuple (names : List String)
  | nonTuple

/-- Embedding of the validation performed by `IfcBaseEntity.__init__`
(`.ok` when construction succeeds). -/
def baseEntityInit (rawObjEntity : Option Raw)
    (expectedTypes : ExpectedTypesArg) : Except PyErr Unit :=
  match rawObjEntity with
  | none => .error .valueError
  | some raw =>
    match expectedTypes with
    | .nonTuple => .error .valueError
    | .tuple names =>
      if names.all (fun t => raw.isA t) then .ok () else .error .valueError

/-- C2 counterexample: a raw record satisfying type-membership for the
first name of a two-name tuple (but not the second) is rejected with
`ValueError`, although the claim says construction succeeds when at
least one name matches. -/
theorem base_entity_init_counterexample :
    (mkRawBase ["IfcObject"] "IfcProject").isA "IfcObject" = true ∧
    baseEntityInit (some (mkRawBase ["IfcObject"] "IfcProject"))
      (.tuple ["IfcObject", "IfcTypeProduct"]) = .error .valueError := by
  constructor
  · decide
  · rfl

/-- C2 (amended): construction succeeds exactly when the record
satisfies type-membership (honoring its inheritance chain) for every
name of the tuple, and raises `ValueError` when the record is missing,
when the expected-types argument is not a tuple, or when membership
fails for at least one name. -/
theorem base_entity_init_all_membership (raw : Raw) (names : List String)
    (et : ExpectedTypesArg) :
    (baseEntityInit (some raw) (.tuple names) = .ok () ↔
      ∀ t ∈ names, raw.isA t = true) ∧
    baseEntityInit none et = .error .valueError ∧
    baseEntityInit (some raw) .nonTuple = .error .valueError := by
  refine ⟨?_, rfl, rfl⟩
  unfold baseEntityInit
  by_cases h : names.all (fun t => raw.isA t)
  · simp only [h, if_true]
    simpa [List.all_eq_true] using h
  · simp only [h, if_false]
    constructor
    · intro hcontra; cases hcontra
    · intro hall
      exact absurd (List.all_eq_true.mpr hall) h

/-! ## `IfcSchemaEntity` attribute merging

A schema entity holds its own attribute dictionary (name to declaration,
unique names, as parsed from the entity block) and an optional supertype.
The `attributes` property returns the declarations ascendingly sorted by
name; `get_all_attributes` concatenates the supertype's merged list
before the entity's own list, recursively. -/

/-- One parsed attribute declaration as stored in
`_attributes_by_name`: its name and its optionality flag. -/
structure SchemaAttrDecl where
  name : String
  isOptional : Bool

/-- An attribute as returned by the `attributes` property: the
declaration together with its declaring entity's name (the Python
objects hold the declaring `IfcSchemaEntity` in their `entity` field). -/
structure SchemaAttr where
  name : String
  entityName : String
  isOptional : Bool

/-- A schema entity: its name, its own attribute dictionary in insertion
order, and its supertype.  The embedding resolves the `supertype_name`
registry lookup into a direct reference, so a root entity (no
`SUBTYPE OF` clause, `supertype_name is None`) and a subtype entity are
the two constructors. -/
inductive SchemaEntity where
  | root (name : String) (attrsByName : List SchemaAttrDecl)
  | sub (name : String) (attrsByName : List SchemaAttrDecl)
        (sup : SchemaEntity)

namespace SchemaEntity

/-- The entity's name. -/
def name : SchemaEntity → String
  | .root n _ => n
  | .sub n _ _ => n

/-- The entity's own attribute dictionary. -/
def attrsByName : SchemaEntity → List SchemaAttrDecl
  | .root _ a => a
  | .sub _ a _ => a

/-- The `supertype` property: the resolved supertype, or `None` for a
root entity. -/
def supertype : SchemaEntity → Option SchemaEntity
  | .root _ _ => none
  | .sub _ _ s => some s

/-- Embedding of the `attributes` property: the entity's own attribute
declarations ascendingly sorted by name (Python iterates
`sorted(self._attributes_by_name)` and reads the dictionary back), each
carrying its declaring entity. -/
def attributes (e : SchemaEntity) : List SchemaAttr :=
  (List.insertionSort (fun x y => pyLe x y = true)
      (e.attrsByName.map (fun d => d.name.data))).filterMap
    (fun nm => (e.attrsByName.find? (fun d => d.name.data == nm)).map
      (fun d => ⟨d.name, e.name, d.isOptional⟩))

/-- Embedding of the `not_optional_attributes` property: the sorted own
attributes with the optional ones removed (the source goes through
`not_optional_attribute_names` and the dictionary; with unique
dictionary keys that is the same filtering). -/
def notOptionalAttributes (e : SchemaEntity) : List SchemaAttr :=
  e.attributes.filter (fun a => !a.isOptional)

/-- Embedding of `get_all_attributes`: own (possibly
optional-filtered) attributes, preceded by the supertype's merged list,
recursively. -/
def getAllAttributes (includeOptional : Bool) : SchemaEntity →
    List SchemaAttr
  | .root n a =>
    if includeOptional then attributes (.root n a)
    else notOptionalAttributes (.root n a)
  | .sub n a s =>
    getAllAttributes includeOptional s ++
      (if includeOptional then attributes (.sub n a s)
       else notOptionalAttributes (.sub n a s))

/-- Embedding of `get_all_attribute_names`: the merged attributes'
names, optionally prefixed (dotted) with the declaring entity's name. -/
def getAllAttributeNames (includeOptional includeClassname : Bool)
    (e : SchemaEntity) : List String :=
  (getAllAttributes includeOptional e).map
    (fun a => if includeClassname
      then a.entityName ++ "." ++ a.name
      else a.name)

/-- The supertype chain of an entity, root first, the entity last. -/
def superchain : SchemaEntity → List SchemaEntity
  | .root n a => [.root n a]
  | .sub n a s => superchain s ++ [.sub n a s]

/-- The (declaring-entity, attribute-name) pairs contributed along the
supertype chain, root first. -/
def chainPairs (e : SchemaEntity) : List (String × String) :=
  (superchain e).flatMap
    (fun s => s.attributes.map (fun a => (a.entityName, a.name)))

end SchemaEntity

theorem getAllAttributes_eq_chain (includeOptional : Bool)
    (e : SchemaEntity) :
    e.getAllAttributes includeOptional =
      (e.superchain).flatMap
        (fun s => if includeOptional then s.attributes
          else s.notOptionalAttributes) := by
  induction e with
  | root n a =>
    simp [SchemaEntity.getAllAttributes, SchemaEntity.superchain]
  | sub n a s ih =>
    simp only [SchemaEntity.getAllAttributes, SchemaEntity.superchain,
      List.flatMap_append, List.flatMap_cons, List.flatMap_nil,
      List.append_nil]
    rw [ih]

/-- C4: `get_all_attributes` walks the supertype chain to the root and
concatenates the per-entity attribute lists root-first leaf-last (with
the optional-attribute filter applied per entity when requested);
`get_all_attribute_names` produces the names of that same merged list in
the same order, dotted with the declaring entity's name only when
requested; and when the (declaring-entity, attribute-name) pairs along
the chain are distinct, the length of `get_all_attribute_names()` equals
the count of distinct pairs along the chain. -/
theorem all_attribute_names_root_first_and_distinct_count
    (e : SchemaEntity) :
    (∀ includeOptional : Bool,
      e.getAllAttributes includeOptional =
        (e.superchain).flatMap
          (fun s => if includeOptional then s.attributes
            else s.notOptionalAttributes)) ∧
    e.getAllAttributeNames true true =
      (e.getAllAttributes true).map (fun a => a.entityName ++ "." ++ a.name) ∧
    e.getAllAttributeNames true false =
      (e.getAllAttributes true).map (fun a => a.name) ∧
    ((e.chainPairs).Nodup →
      (e.getAllAttributeNames true false).length =
        (e.chainPairs).dedup.length) := by
  refine ⟨fun io => getAllAttributes_eq_chain io e, ?_, ?_, ?_⟩
  · unfold SchemaEntity.getAllAttributeNames
    simp
  · unfold SchemaEntity.getAllAttributeNames
    simp
  · intro hnodup
    rw [List.dedup_eq_self.mpr hnodup]
    unfold SchemaEntity.getAllAttributeNames SchemaEntity.chainPairs
    rw [getAllAttributes_eq_chain true e]
    simp only [List.length_map, List.length_flatMap]
    apply congrArg
    apply List.map_congr_left
    intro s _
    simp

/-- C4 witness: the theorem applied to a two-level concrete hierarchy
(a root with attributes `GlobalId`, `Name` and a child with `Name`),
discharging the distinct-pairs hypothesis concretely. -/
theorem all_attribute_names_witness :
    SchemaEntity.getAllAttributeNames true false
      (SchemaEntity.sub "IfcObject" [⟨"Name", true⟩]
        (SchemaEntity.root "IfcRoot"
          [⟨"GlobalId", false⟩, ⟨"Name", true⟩])) =
      ["GlobalId", "Name", "Name"] ∧
    (SchemaEntity.getAllAttributeNames true false
      (SchemaEntity.sub "IfcObject" [⟨"Name", true⟩]
        (SchemaEntity.root "IfcRoot"
          [⟨"GlobalId", false⟩, ⟨"Name", true⟩]))).length =
      (SchemaEntity.chainPairs
        (SchemaEntity.sub "IfcObject" [⟨"Name", true⟩]
          (SchemaEntity.root "IfcRoot"
            [⟨"GlobalId", false⟩, ⟨"Name", true⟩]))).dedup.length := by
  constructor
  · decide
  · exact (all_attribute_names_root_first_and_distinct_count _).2.2.2
      (by decide)

/-! ## `IfcObjectEntity` property lookup

`get_properties` iterates `self.property_sets or ()` and concatenates
the `properties` of every set whose codename matches the requested one
(or of every set when no codename is requested); `get_property` returns
the first property whose codename matches; `get_property_value` returns
its `(value, unit)` pair or `(None, None)`.  The functions below take
the entity's memoized `property_sets` value as input. -/

/-- A raw Python value carried by a property (the embedding only needs
decidable equality on values). -/
inductive PyVal where
  | int (i : Int)
  | str (s : String)
  deriving DecidableEq

/-- A wrapped property as seen by the lookup helpers: its display name
(`IfcProperty.Name` is a required schema attribute; for type-level
pseudo-properties it is the attribute name) and the results of its
memoized `value` and `unit` accessors. -/
structure PropRec where
  name : String
  value : Option PyVal
  unit : Option PyVal
  deriving DecidableEq

/-- A wrapped property set: its display name and its memoized
`properties` tuple (`none` when loading yielded nothing). -/
structure PSetRec where
  name : String
  properties : Option (List PropRec)
  deriving DecidableEq

/-- The codename of a present display name: punctuation stripped,
lower-cased, spaces removed (the `some` branch of the `codename`
accessor). -/
def codenameStr (s : String) : String :=
  String.mk (((pyPunctuation.foldl removePunctChar s.data).map
    pyLowerChar).filter (fun c => c ≠ ' '))

/-- Embedding of `IfcObjectEntity.get_properties` over the memoized
`property_sets` value. -/
def getProperties (psets : Option (List PSetRec))
    (psetCodename : Option String) : List PropRec :=
  (psets.getD []).foldl
    (fun props pset =>
      if psetCodename = none ∨ some (codenameStr pset.name) = psetCodename
      then props ++ pset.properties.getD []
      else props) []

/-- Embedding of `IfcObjectEntity.get_property`: the first property of
the filtered sets whose codename equals the requested one. -/
def getProperty (psets : Option (List PSetRec)) (propertyCodename : String)
    (psetCodename : Option String) : Option PropRec :=
  (getProperties psets psetCodename).find?
    (fun prop => propertyCodename == codenameStr prop.name)

/-- Embedding of `IfcObjectEntity.get_property_value`: the found
property's `(value, unit)` pair, else `(None, None)`. -/
def getPropertyValue (psets : Option (List PSetRec))
    (propertyCodename : String) (psetCodename : Option String) :
    Option PyVal × Option PyVal :=
  match getProperty psets propertyCodename psetCodename with
  | some prop => (prop.value, prop.unit)
  | none => (none, none)

/-- Specification-level filtered property list: the properties of the
codename-matching sets, in set order then member order. -/
def filteredProperties (psets : Option (List PSetRec))
    (psetCodename : Option String) : List PropRec :=
  ((psets.getD []).filter
    (fun pset => decide (psetCodename = none ∨
      some (codenameStr pset.name) = psetCodename))).flatMap
    (fun pset => pset.properties.getD [])

theorem getProperties_foldl_eq (psetCodename : Option String)
    (l : List PSetRec) (acc : List PropRec) :
    (l.foldl
      (fun props pset =>
        if psetCodename = none ∨ some (codenameStr pset.name) = psetCodename
        then props ++ pset.properties.getD []
        else props) acc) =
      acc ++ (l.filter
        (fun pset => decide (psetCodename = none ∨
          some (codenameStr pset.name) = psetCodename))).flatMap
        (fun pset => pset.properties.getD []) := by
  induction l generalizing acc with
  | nil => simp
  | cons pset rest ih =>
    by_cases h : psetCodename = none ∨
        some (codenameStr pset.name) = psetCodename
    · simp only [List.foldl_cons, List.filter_cons, h, if_true,
        decide_eq_true_eq, List.flatMap_cons]
      rw [ih]
      simp [List.append_assoc, h]
    · simp only [List.foldl_cons, List.filter_cons, h, if_false]
      rw [ih]
      simp [h]

/-- C3: `get_property_value` returns the `(value, unit)` pair of the
first matching property of the codename-filtered property sets, and
returns `(None, None)` without raising whenever no property of the
filtered sets matches - which covers an unknown property-set codename
(no set passes the filter) and a known set that lacks the property. -/
theorem get_property_value_first_match_or_none
    (psets : Option (List PSetRec)) (pcode : String)
    (scode : Option String) :
    getProperties psets scode = filteredProperties psets scode ∧
    getProperty psets pcode scode =
      (filteredProperties psets scode).find?
        (fun p => pcode == codenameStr p.name) ∧
    (∀ p, getProperty psets pcode scode = some p →
      getPropertyValue psets pcode scode = (p.value, p.unit)) ∧
    ((∀ p ∈ filteredProperties psets scode, pcode ≠ codenameStr p.name) →
      getPropertyValue psets pcode scode = (none, none)) := by
  have hprops : getProperties psets scode = filteredProperties psets scode := by
    unfold getProperties filteredProperties
    rw [getProperties_foldl_eq]
    simp
  refine ⟨hprops, ?_, ?_, ?_⟩
  · unfold getProperty
    rw [hprops]
  · intro p hp
    unfold getPropertyValue
    rw [hp]
  · intro hnone
    have hfind : getProperty psets pcode scode = none := by
      unfold getProperty
      rw [hprops, List.find?_eq_none]
      intro p hp
      simpa using hnone p hp
    unfold getPropertyValue
    rw [hfind]

set_option maxRecDepth 40000 in
/-- C3 witness: a door-like entity with a `Dimensions` set holding a
`Height` property and an empty `Identity Data` set; the theorem yields
the value pair for the found property, and the `(None, None)` pair both
for an unknown set codename and for the known set lacking the
property. -/
theorem get_property_value_witness :
    getPropertyValue
      (some [⟨"Dimensions", some [⟨"Height", some (.int 2110), none⟩]⟩,
        ⟨"Identity Data", some []⟩]) "height" none =
      (some (.int 2110), none) ∧
    getPropertyValue
      (some [⟨"Dimensions", some [⟨"Height", some (.int 2110), none⟩]⟩,
        ⟨"Identity Data", some []⟩]) "height" (some "unknownpset") =
      (none, none) ∧
    getPropertyValue
      (some [⟨"Dimensions", some [⟨"Height", some (.int 2110), none⟩]⟩,
        ⟨"Identity Data", some []⟩]) "height" (some "identitydata") =
      (none, none) := by
  refine ⟨?_, ?_, ?_⟩
  · exact (get_property_value_first_match_or_none _ "height" none).2.2.1
      ⟨"Height", some (.int 2110), none⟩ (by decide)
  · exact (get_property_value_first_match_or_none _ "height"
      (some "unknownpset")).2.2.2 (by decide)
  · exact (get_property_value_first_match_or_none _ "height"
      (some "identitydata")).2.2.2 (by decide)

/-! ## Wrapped entities and lazy memoization

`IfcObjectEntity.__init__` sets the five lazy fields (`_parent`,
`_kids`, `_property_sets`, `_quantities`, `_object_type`) to `None`;
each property loads on first access and stores the result.  The wrapper
objects are modelled with explicit cache fields; accessors return the
value together with the possibly-updated object.  The loaders follow the
happy path of the source (constructor type-validation, which would raise
on malformed data, is covered by the validation-base embedding). -/

/-- A wrapped property (`IfcObjectEntityPropertyBase` subclasses):
either a simple property over its raw record, or a type-level
pseudo-property over the type-definition record and an attribute name. -/
inductive PropObj where
  | simpleProp (raw : Raw)
  | typeProp (raw : Raw) (propName : Option String)

/-- A wrapped quantity (`IfcObjectEntityQuantityBase` subclasses). -/
inductive QtyObj where
  | simpleQty (raw : Raw)

/-- A wrapped property set (`IfcObjectEntityPropertySetBase`
subclasses), with its lazy `_properties` cache. -/
inductive PSetObj where
  | plainSet (raw : Raw) (propsCache : Option (List PropObj))
  | typeSet (raw : Raw) (propsCache : Option (List PropObj))

/-- A wrapped entity (`IfcObjectEntity`): the raw record and the five
lazy caches, all `None` at construction. -/
inductive Obj where
  | mk (raw : Raw)
       (parentCache : Option Obj)
       (kidsCache : Option (List Obj))
       (psetsCache : Option (List PSetObj))
       (qtysCache : Option (List QtyObj))
       (objectTypeCache : Option Obj)

/-- Embedding of `IfcObjectEntity.__init__`: all lazy caches start at
`None`. -/
def mkEntity (raw : Raw) : Obj := .mk raw none none none none none

/-- The wrapped entity's raw record (`self._raw`). -/
def Obj.raw : Obj → Raw
  | .mk r _ _ _ _ _ => r

/-- Embedding of `IfcObjectEntityPropertyBase.create`: a simple property
for an `IfcSimpleProperty` record, a type-level pseudo-property for an
`IfcPropertySetDefinition` record, else no instance (the raw shape is
dropped with a diagnostic print). -/
def createProp (raw : Raw) (propName : Option String) : Option PropObj :=
  if raw.isA "IfcSimpleProperty" then some (.simpleProp raw)
  else if raw.isA "IfcPropertySetDefinition" then some (.typeProp raw propName)
  else none

/-- Embedding of `IfcObjectEntityPropertySetBase.create`. -/
def createPSet (raw : Raw) : Option PSetObj :=
  if raw.isA "IfcPropertySet" then some (.plainSet raw none)
  else if raw.isA "IfcPropertySetDefinition" then some (.typeSet raw none)
  else none

/-- Embedding of `IfcObjectEntityQuantityBase.create`. -/
def createQty (raw : Raw) : Option QtyObj :=
  if raw.isA "IfcPhysicalSimpleQuantity" then some (.simpleQty raw)
  else none

/-- Embedding of `IfcObjectEntity._load_parent`: wrap the relating
object when one is resolved. -/
def loadParent (raw : Raw) : Option Obj :=
  (getRelatingObject raw).map mkEntity

/-- Embedding of `IfcObjectEntity._get_related_objects`: concatenate the
`RelatedObjects` of the grouping relations (for a zone) or of the
decomposition relations, in relation-iteration order. -/
def getRelatedObjects (raw : Raw) : Option (List Raw) :=
  if raw.isA "IfcObjectDefinition" then
    some ((if raw.isA "IfcZone" then raw.isGroupedBy
      else raw.isDecomposedBy).foldl
        (fun acc rel => acc ++ rel.relatedObjects) [])
  else none

/-- Embedding of `IfcObjectEntity._load_kids`. -/
def loadKids (raw : Raw) : Option (List Obj) :=
  (getRelatedObjects raw).map (fun l => l.map mkEntity)

/-- Embedding of `IfcObjectEntity._load_object_type`: the first
defines-by-type relation's `RelatingType`, wrapped. -/
def loadObjectType (raw : Raw) : Option Obj :=
  if raw.isA "IfcObject" then
    match raw.isDefinedBy.find? (fun rel => rel.isA "IfcRelDefinesByType") with
    | some rel => rel.relatingType.map mkEntity
    | none => none
  else none

/-- Embedding of `IfcObjectEntity._load_property_sets`: the
defines-by-properties targets that are not element quantities (or the
type object's own `HasPropertySets`), wrapped; `None` when the collected
raw tuple is empty. -/
def loadPropertySets (raw : Raw) : Option (List PSetObj) :=
  let rawPsets : List Raw :=
    if raw.isA "IfcObject" then
      raw.isDefinedBy.foldl
        (fun acc rel =>
          if rel.isA "IfcRelDefinesByProperties" then
            match rel.relatingPropertyDefinition with
            | some t =>
              if !(t.isA "IfcElementQuantity") then acc ++ [t] else acc
            | none => acc
          else acc) []
    else if raw.isA "IfcTypeObject" then raw.hasPropertySets
    else []
  if rawPsets.length > 0 then some (rawPsets.filterMap createPSet) else none

/-- Embedding of `IfcObjectEntity._load_quantities`: the element
quantities reached through defines-by-properties relations, expanded
into their wrapped quantity members. -/
def loadQuantities (raw : Raw) : Option (List QtyObj) :=
  if raw.isA "IfcObject" then
    let rawElmtQty : List Raw := raw.isDefinedBy.filterMap
      (fun rel =>
        match rel.relatingPropertyDefinition with
        | some t =>
          if rel.isA "IfcRelDefinesByProperties" && t.isA "IfcElementQuantity"
          then some t else none
        | none => none)
    some (rawElmtQty.foldl
      (fun acc elmt => acc ++ elmt.quantities.filterMap createQty) [])
  else none

/-- The `parent` property: load on first access, then return the cache. -/
def Obj.parentAccess : Obj → Option Obj × Obj
  | .mk r pc kc psc qc oc =>
    match pc with
    | some p => (some p, .mk r (some p) kc psc qc oc)
    | none => (loadParent r, .mk r (loadParent r) kc psc qc oc)

/-- The `kids` property: load on first access, then return the cache. -/
def Obj.kidsAccess : Obj → Option (List Obj) × Obj
  | .mk r pc kc psc qc oc =>
    match kc with
    | some ks => (some ks, .mk r pc (some ks) psc qc oc)
    | none => (loadKids r, .mk r pc (loadKids r) psc qc oc)

/-- The `property_sets` property: load on first access, then return the
cache. -/
def Obj.psetsAccess : Obj → Option (List PSetObj) × Obj
  | .mk r pc kc psc qc oc =>
    match psc with
    | some ps => (some ps, .mk r pc kc (some ps) qc oc)
    | none => (loadPropertySets r, .mk r pc kc (loadPropertySets r) qc oc)

/-- The `quantities` property: load on first access, then return the
cache. -/
def Obj.qtysAccess : Obj → Option (List QtyObj) × Obj
  | .mk r pc kc psc qc oc =>
    match qc with
    | some qs => (some qs, .mk r pc kc psc (some qs) oc)
    | none => (loadQuantities r, .mk r pc kc psc (loadQuantities r) oc)

/-- The `object_type` property: load on first access, then return the
cache. -/
def Obj.objectTypeAccess : Obj → Option Obj × Obj
  | .mk r pc kc psc qc oc =>
    match oc with
    | some t => (some t, .mk r pc kc psc qc (some t))
    | none => (loadObjectType r, .mk r pc kc psc qc (loadObjectType r))

/-- Properties of a plain property set
(`IfcObjectEntityPropertySet._load_properties`): wrap each member of the
raw set's `HasProperties`. -/
def loadPlainSetProps (raw : Raw) : List PropObj :=
  raw.hasProperties.filterMap (fun p => createProp p none)

/-- Properties of a type-level property set
(`IfcObjectEntityTypePropertySet._load_properties`): one pseudo-property
per schema attribute name of the raw record's entity type
(`attrNamesOf` models the read-only schema registry's
`get_entity(type_name).attribute_names`). -/
def loadTypeSetProps (attrNamesOf : String → List String) (raw : Raw) :
    List PropObj :=
  (attrNamesOf raw.typeName).filterMap
    (fun pn => createProp raw (some pn))

/-- The `properties` property of a wrapped property set: load on first
access, then return the cache. -/
def PSetObj.propsAccess (attrNamesOf : String → List String) :
    PSetObj → Option (List PropObj) × PSetObj
  | .plainSet r pc =>
    match pc with
    | some ps => (some ps, .plainSet r (some ps))
    | none =>
      (some (loadPlainSetProps r), .plainSet r (some (loadPlainSetProps r)))
  | .typeSet r pc =>
    match pc with
    | some ps => (some ps, .typeSet r (some ps))
    | none =>
      (some (loadTypeSetProps attrNamesOf r),
        .typeSet r (some (loadTypeSetProps attrNamesOf r)))

/-- C9: over immutable raw input, every lazily memoized accessor of a
wrapped entity (`parent`, `kids`, `property_sets`, `quantities`,
`object_type`) and the `properties` accessor of a wrapped property set
are idempotent: a second access returns exactly the result of the first
and leaves the caches unchanged. -/
theorem memoized_accessors_idempotent :
    (∀ o : Obj, Obj.parentAccess (Obj.parentAccess o).2 = Obj.parentAccess o) ∧
    (∀ o : Obj, Obj.kidsAccess (Obj.kidsAccess o).2 = Obj.kidsAccess o) ∧
    (∀ o : Obj, Obj.psetsAccess (Obj.psetsAccess o).2 = Obj.psetsAccess o) ∧
    (∀ o : Obj, Obj.qtysAccess (Obj.qtysAccess o).2 = Obj.qtysAccess o) ∧
    (∀ o : Obj,
      Obj.objectTypeAccess (Obj.objectTypeAccess o).2 =
        Obj.objectTypeAccess o) ∧
    (∀ (attrNamesOf : String → List String) (ps : PSetObj),
      PSetObj.propsAccess attrNamesOf
          (PSetObj.propsAccess attrNamesOf ps).2 =
        PSetObj.propsAccess attrNamesOf ps) := by
  refine ⟨?_, ?_, ?_, ?_, ?_, ?_⟩
  · intro o
    cases o with
    | mk r pc kc psc qc oc =>
      cases pc with
      | some p => rfl
      | none =>
        simp only [Obj.parentAccess]
        cases h : loadParent r with
        | none => simp [Obj.parentAccess, h]
        | some p => simp [Obj.parentAccess, h]
  · intro o
    cases o with
    | mk r pc kc psc qc oc =>
      cases kc with
      | some ks => rfl
      | none =>
        simp only [Obj.kidsAccess]
        cases h : loadKids r with
        | none => simp [Obj.kidsAccess, h]
        | some ks => simp [Obj.kidsAccess, h]
  · intro o
    cases o with
    | mk r pc kc psc qc oc =>
      cases psc with
      | some ps => rfl
      | none =>
        simp only [Obj.psetsAccess]
        cases h : loadPropertySets r with
        | none => simp [Obj.psetsAccess, h]
        | some ps => simp [Obj.psetsAccess, h]
  · intro o
    cases o with
    | mk r pc kc psc qc oc =>
      cases qc with
      | some qs => rfl
      | none =>
        simp only [Obj.qtysAccess]
        cases h : loadQuantities r with
        | none => simp [Obj.qtysAccess, h]
        | some qs => simp [Obj.qtysAccess, h]
  · intro o
    cases o with
    | mk r pc kc psc qc oc =>
      cases oc with
      | some t => rfl
      | none =>
        simp only [Obj.objectTypeAccess]
        cases h : loadObjectType r with
        | none => simp [Obj.objectTypeAccess, h]
        | some t => simp [Obj.objectTypeAccess, h]
  · intro attrNamesOf ps
    cases ps with
    | plainSet r pc =>
      cases pc with
      | some l => rfl
      | none => rfl
    | typeSet r pc =>
      cases pc with
      | some l => rfl
      | none => rfl

/-! ## `IfcDataReader.read_sites`

The undivided-only site query keeps every wrapped site whose
`is_element` holds and otherwise tries to substitute the site's parent
when the parent is an undivided site.  The parent test calls
`cur_ent.parent.is_a('IfcSite')`, but neither `IfcObjectEntity` nor
`IfcBaseEntity` defines an attribute named `is_a` (and no `__getattr__`
delegates to the raw record), so that attribute lookup raises
`AttributeError`. -/

/-- Embedding of the `composition_type` property: the
`CompositionType` field of an `IfcSpatialStructureElement` record,
else `None`. -/
def Obj.compositionTypeProp (o : Obj) : Option String :=
  if o.raw.isA "IfcSpatialStructureElement" then o.raw.compositionType
  else none

/-- Embedding of the `is_element` property:
`composition_type == 'ELEMENT'`. -/
def Obj.isElement (o : Obj) : Bool :=
  o.compositionTypeProp == some "ELEMENT"

/-- Attribute access `wrapped.is_a(...)` on a wrapped entity: the class
hierarchy defines no such attribute, so Python raises `AttributeError`
regardless of the argument. -/
def wrapperIsA : Obj → String → Except PyErr Bool :=
  fun _ _ => .error .attributeError

/-- Embedding of `IfcDataReader.read_sites` over the raw records the
provider returns for the type name `IfcSite` (each wrapped as in
`_read_entities`). -/
def readSites (undividedOnly : Bool) (rawSites : List Raw) :
    Except PyErr (List Obj) :=
  (rawSites.map mkEntity).foldlM
    (fun acc cur =>
      if !undividedOnly || (undividedOnly && Obj.isElement cur) then
        Except.ok (acc ++ [cur])
      else
        match (Obj.parentAccess cur).1 with
        | some p =>
          if Obj.isElement p then
            match wrapperIsA p "IfcSite" with
            | .ok b => if b then Except.ok (acc ++ [p]) else Except.ok acc
            | .error e => Except.error e
          else Except.ok acc
        | none => Except.ok acc)
    []

/-- The transitive type chain of an `IfcSite` record. -/
def exSiteTypes : List String :=
  ["IfcSite", "IfcSpatialStructureElement", "IfcProduct", "IfcObject",
   "IfcObjectDefinition", "IfcRoot"]

/-- An undivided (`ELEMENT`) site record. -/
def exSiteElementRaw : Raw :=
  .mk exSiteTypes "IfcSite" (some "ELEMENT") none [] [] [] [] [] [] [] []
    [] [] none none none none none

/-- The parent site record, itself undivided (`ELEMENT`). -/
def exParentSiteRaw : Raw :=
  .mk exSiteTypes "IfcSite" (some "ELEMENT") none [] [] [] [] [] [] [] []
    [] [] none none none none none

/-- A `COMPLEX` site record decomposed under the `ELEMENT` parent site
through one decomposition relation. -/
def exSiteComplexRaw : Raw :=
  .mk exSiteTypes "IfcSite" (some "COMPLEX") none [] []
    [.mk ["IfcRelAggregates", "IfcRelDecomposes"] "IfcRelAggregates"
      none none [] [] [] [] [] [] [] [] [] [] none none
      (some exParentSiteRaw) none none]
    [] [] [] [] [] [] [] none none none none none

/-- C8: an `ELEMENT` site is retained by the undivided-only site query,
but a `COMPLEX` site whose parent resolves to an `ELEMENT` site is not
replaced by that parent - the query raises `AttributeError` because the
wrapper class defines no `is_a` attribute, although the branch exists
precisely to perform that replacement. -/
theorem read_sites_element_kept_complex_raises :
    readSites true [exSiteElementRaw] = .ok [mkEntity exSiteElementRaw] ∧
    (Obj.parentAccess (mkEntity exSiteComplexRaw)).1 =
      some (mkEntity exParentSiteRaw) ∧
    Obj.isElement (mkEntity exParentSiteRaw) = true ∧
    readSites true [exSiteComplexRaw] = .error .attributeError := by
  refine ⟨rfl, rfl, by decide, rfl⟩

end IfcDR
